import Mathlib

/-!
Verification development for the AssetsBridge addon's skeleton-retargeting
and shape-key-transfer subsystems.

The definitions below are a shallow embedding of the Python source:
  * `src/operators/skeleton_retarget.py` — name normalization, side
    detection, Levenshtein distance, the match-confidence ladder, the
    four-pass bone-correspondence builder, vertex-group merge, the
    reparenting step of weight transfer, and the precondition checks of
    the retarget operator.
  * `src/operators/shape_keys.py` — topology-mode vertex mapping,
    barycentric weights, shape-key delta application, and the shape-key
    transfer loop.

Python floats are modelled as exact rationals (`ℚ`) where the code only
performs ladder comparisons against literal thresholds, and as reals
(`ℝ`) where geometric lengths (square roots) occur.  Python dicts are
modelled as insertion-ordered association lists with overwrite-on-insert,
matching CPython's iteration-order guarantee.  Host (Blender) objects are
modelled by the fields the code reads and writes.
-/

/-! ## String utilities

Python string primitives used by the source: `lower`, `strip`,
substring test (`in`), `startswith`, `endswith`, slicing. -/

/-- Substring prefix test on character lists (Python `startswith`). -/
def listPrefixOf : List Char → List Char → Bool
  | [], _ => true
  | _ :: _, [] => false
  | a :: as, b :: bs => a = b && listPrefixOf as bs

/-- Substring containment on character lists (Python `in`). -/
def listInfixOf : List Char → List Char → Bool
  | p, [] => p.isEmpty
  | p, s@(_ :: t) => listPrefixOf p s || listInfixOf p t

/-- Python `s.lower()` (ASCII names). -/
def lowerStr (s : String) : String := ⟨s.data.map Char.toLower⟩

/-- Python `needle in hay` substring test. -/
def containsStr (hay needle : String) : Bool := listInfixOf needle.data hay.data

/-- Python `s.startswith(p)`. -/
def startsWithStr (s p : String) : Bool := listPrefixOf p.data s.data

/-- Python `s.endswith(p)`. -/
def endsWithStr (s p : String) : Bool := listPrefixOf p.data.reverse s.data.reverse

/-- Python `s.strip()`: remove surrounding whitespace. -/
def trimStr (s : String) : String :=
  ⟨((s.data.dropWhile Char.isWhitespace).reverse.dropWhile Char.isWhitespace).reverse⟩

/-- Python `s[n:]`. -/
def dropStr (s : String) (n : Nat) : String := ⟨s.data.drop n⟩

/-- Python `s[:n]`. -/
def takeStr (s : String) (n : Nat) : String := ⟨s.data.take n⟩

/-! ## Levenshtein distance (`levenshtein_distance`)

Row-based dynamic program, translated from the Python loop: the current
row starts at `i + 1` and each cell is
`min(previous_row[j+1] + 1, current_row[j] + 1, previous_row[j] + (c1 != c2))`. -/

/-- Inner loop of one DP row: consumes `s2` together with the previous
row (`pj :: pj1 :: ...`), carrying the last computed cell `cur`. -/
def levRowAux (c1 : Char) : List Char → List Nat → Nat → List Nat
  | c2 :: s2, pj :: pj1 :: prest, cur =>
      let ins := pj1 + 1
      let del := cur + 1
      let sub := pj + (if c1 = c2 then 0 else 1)
      let next := min ins (min del sub)
      next :: levRowAux c1 s2 (pj1 :: prest) next
  | _, _, _ => []

/-- Outer loop over `s1`; `prev` is the previous DP row, `i` the row index. -/
def levFold : List Char → List Char → List Nat → Nat → List Nat
  | [], _, prev, _ => prev
  | c1 :: s1, s2, prev, i =>
      levFold s1 s2 ((i + 1) :: levRowAux c1 s2 prev (i + 1)) (i + 1)

/-- `levenshtein_distance(s1, s2)` from the source: swaps so the first
argument is the longer string, then runs the row DP and returns the last
cell of the final row. -/
def levenshtein_distance (a b : String) : Nat :=
  let p := if a.length < b.length then (b.data, a.data) else (a.data, b.data)
  if p.2.length = 0 then p.1.length
  else ((levFold p.1 p.2 (List.range (p.2.length + 1)) 0).getLast?).getD 0

/-! ## Name normalization and side detection -/

/-- Rigging prefixes stripped by `normalize_bone_name`. -/
def rigPrefixTokens : List String :=
  ["def_", "def-", "drv_", "drv-", "ctrl_", "ctrl-", "ik_", "ik-", "fk_", "fk-", "mch_", "mch-"]

/-- Rigging suffixes stripped by `normalize_bone_name`. -/
def rigSuffixTokens : List String :=
  ["_def", "-def", "_drv", "-drv", "_ctrl", "-ctrl"]

/-- `normalize_bone_name`: lowercase, strip, then remove each known
rigging prefix/suffix in list order. -/
def normalize_bone_name (name : String) : String :=
  let n := trimStr (lowerStr name)
  let n := rigPrefixTokens.foldl
    (fun m p => if startsWithStr m p then dropStr m p.length else m) n
  rigSuffixTokens.foldl
    (fun m sfx => if endsWithStr m sfx then takeStr m (m.length - sfx.length) else m) n

/-- Left-side marker patterns from `get_side_from_name`. -/
def leftPatterns : List String :=
  ["_l", ".l", "-l", "left", "_left", ".left", "-left", "l_", "l.", "l-"]

/-- Right-side marker patterns from `get_side_from_name`. -/
def rightPatterns : List String :=
  ["_r", ".r", "-r", "right", "_right", ".right", "-right", "r_", "r.", "r-"]

/-- `get_side_from_name`: first scan for any left pattern, then any right
pattern (substring, suffix, or prefix as in the source), else center. -/
def get_side_from_name (name : String) : String :=
  if leftPatterns.any (fun p =>
      containsStr (lowerStr name) p || endsWithStr (lowerStr name) p
        || startsWithStr (lowerStr name) p) then ("left")
  else if rightPatterns.any (fun p =>
      containsStr (lowerStr name) p || endsWithStr (lowerStr name) p
        || startsWithStr (lowerStr name) p) then ("right")
  else ("center")

/-! ## Alias and finger tables (`UE5_BONE_ALIASES`, `FINGER_PATTERNS`)

Python dicts are insertion-ordered, so they are association lists here,
in source order. -/

def UE5_BONE_ALIASES : List (String × List String) :=
  [("root", ["root", "main", "origin", "armature"]),
   ("pelvis", ["pelvis", "hips", "hip", "cog", "center_of_gravity"]),
   ("spine_01", ["spine", "spine1", "spine_01", "spine.001", "abdomen"]),
   ("spine_02", ["spine2", "spine_02", "spine.002", "chest_lower"]),
   ("spine_03", ["spine3", "spine_03", "spine.003", "chest", "chest_upper"]),
   ("spine_04", ["spine4", "spine_04", "spine.004"]),
   ("spine_05", ["spine5", "spine_05", "spine.005"]),
   ("neck_01", ["neck", "neck1", "neck_01", "neck.001"]),
   ("neck_02", ["neck2", "neck_02", "neck.002"]),
   ("head", ["head", "skull"]),
   ("clavicle_l", ["clavicle_l", "collar_l", "shoulder_l", "leftshoulder", "l_clavicle", "clavicle.l"]),
   ("clavicle_r", ["clavicle_r", "collar_r", "shoulder_r", "rightshoulder", "r_clavicle", "clavicle.r"]),
   ("upperarm_l", ["upperarm_l", "arm_l", "leftarm", "l_upperarm", "upper_arm_l", "upperarm.l"]),
   ("upperarm_r", ["upperarm_r", "arm_r", "rightarm", "r_upperarm", "upper_arm_r", "upperarm.r"]),
   ("lowerarm_l", ["lowerarm_l", "forearm_l", "leftforearm", "l_lowerarm", "lower_arm_l", "lowerarm.l"]),
   ("lowerarm_r", ["lowerarm_r", "forearm_r", "rightforearm", "r_lowerarm", "lower_arm_r", "lowerarm.r"]),
   ("hand_l", ["hand_l", "lefthand", "l_hand", "wrist_l", "hand.l"]),
   ("hand_r", ["hand_r", "righthand", "r_hand", "wrist_r", "hand.r"]),
   ("thigh_l", ["thigh_l", "upperleg_l", "leftupleg", "l_thigh", "upper_leg_l", "thigh.l"]),
   ("thigh_r", ["thigh_r", "upperleg_r", "rightupleg", "r_thigh", "upper_leg_r", "thigh.r"]),
   ("calf_l", ["calf_l", "lowerleg_l", "shin_l", "leftleg", "l_calf", "lower_leg_l", "calf.l"]),
   ("calf_r", ["calf_r", "lowerleg_r", "shin_r", "rightleg", "r_calf", "lower_leg_r", "calf.r"]),
   ("foot_l", ["foot_l", "leftfoot", "l_foot", "ankle_l", "foot.l"]),
   ("foot_r", ["foot_r", "rightfoot", "r_foot", "ankle_r", "foot.r"]),
   ("ball_l", ["ball_l", "toe_l", "lefttoebase", "l_ball", "toes_l", "ball.l"]),
   ("ball_r", ["ball_r", "toe_r", "righttoebase", "r_ball", "toes_r", "ball.r"])]

def FINGER_PATTERNS : List (String × List String) :=
  [("thumb", ["thumb", "finger0", "finger_0"]),
   ("index", ["index", "finger1", "finger_1", "pointer"]),
   ("middle", ["middle", "finger2", "finger_2", "mid"]),
   ("ring", ["ring", "finger3", "finger_3"]),
   ("pinky", ["pinky", "finger4", "finger_4", "little", "small"])]

/-- Anatomical key substrings that give the +0.15 boost. -/
def keyParts : List String :=
  ["spine", "arm", "leg", "hand", "foot", "head", "neck", "thigh", "calf", "shoulder"]

/-! ## Match confidence (`compute_match_confidence`) -/

/-- The alias-table scan inside `compute_match_confidence`: some entry of
`UE5_BONE_ALIASES` is matched by the lowercased first name (canonical or
alias) and by the normalized second name. -/
def aliasPairMatch (ue5_lower target_norm : String) : Bool :=
  decide (∃ e ∈ UE5_BONE_ALIASES,
    (ue5_lower = e.1 ∨ ue5_lower ∈ e.2) ∧ (target_norm ∈ e.2 ∨ target_norm = e.1))

/-- Key-substring boost loop: the first anatomical part contained in both
normalized names adds 0.15 (capped at 1), then the loop breaks. -/
def keyPartBoost : List String → String → String → ℚ → ℚ
  | [], _, _, sim => sim
  | p :: rest, a, b, sim =>
    if containsStr a p && containsStr b p then min 1 (sim + 15/100)
    else keyPartBoost rest a b sim

/-- Finger loop: +0.2 (and break) when both names reference the same
finger; −0.3 (no break) when exactly one of them references it. -/
def fingerAdjust : List (String × List String) → String → String → ℚ → ℚ
  | [], _, _, sim => sim
  | (finger, pats) :: rest, a, b, sim =>
    let ha := pats.any (fun p => containsStr a p) || containsStr a finger
    let hb := pats.any (fun p => containsStr b p) || containsStr b finger
    if ha && hb then min 1 (sim + 2/10)
    else if ha != hb then fingerAdjust rest a b (max 0 (sim - 3/10))
    else fingerAdjust rest a b sim

/-- Fuzzy tail of `compute_match_confidence`: Levenshtein similarity on
the normalized names, boosted/penalized, then bucketed by threshold. -/
def fuzzy_confidence (ue5_norm target_norm : String) : ℚ × String :=
  if max ue5_norm.length target_norm.length = 0 then (0, ("empty_names"))
  else
    let distance := levenshtein_distance ue5_norm target_norm
    let similarity : ℚ :=
      1 - (distance : ℚ) / ((max ue5_norm.length target_norm.length : Nat) : ℚ)
    let s2 := keyPartBoost keyParts ue5_norm target_norm similarity
    let s3 := fingerAdjust FINGER_PATTERNS ue5_norm target_norm s2
    if 7/10 ≤ s3 then (s3, ("fuzzy_high"))
    else if 5/10 ≤ s3 then (s3, ("fuzzy_medium"))
    else (s3, ("fuzzy_low"))

/-- `compute_match_confidence(ue5_bone, target_bone)`: the decision
ladder exactly as in the source — normalized equality first, then the
alias table, then the side-mismatch veto, then the fuzzy score. -/
def compute_match_confidence (ue5_bone target_bone : String) : ℚ × String :=
  if normalize_bone_name ue5_bone = normalize_bone_name target_bone then
    (1, ("exact_match"))
  else if aliasPairMatch (lowerStr ue5_bone) (normalize_bone_name target_bone) then
    (95/100, ("alias_match"))
  else if get_side_from_name ue5_bone ≠ get_side_from_name target_bone
      ∧ get_side_from_name ue5_bone ≠ ("center")
      ∧ get_side_from_name target_bone ≠ ("center") then
    (0, ("side_mismatch"))
  else
    fuzzy_confidence (normalize_bone_name ue5_bone) (normalize_bone_name target_bone)

/-! ## Bone correspondence builder (`build_bone_mapping`)

One mapping entry per source bone.  `mapping_results` (a Python dict
keyed by source-bone name) is an association list with
overwrite-on-insert; `used_targets` (a Python set) is a list with
membership insertion guarded by the algorithm itself. -/

/-- One entry of the mapping produced by `build_bone_mapping`
(fields of the Python result dict / `BoneMappingItem`). -/
structure BoneMapEntry where
  ue5_bone : String
  target_bone : String
  confidence : ℚ
  category : String
  reason : String
  enabled : Bool
deriving DecidableEq, Repr

/-- Dict lookup (first occurrence: keys are unique by construction). -/
def dictLookup (k : String) : List (String × BoneMapEntry) → Option BoneMapEntry
  | [] => none
  | (k', v) :: rest => if k' = k then some v else dictLookup k rest

/-- Dict insert: overwrite in place when the key is present, else append
(CPython dict semantics). -/
def dictInsert (k : String) (v : BoneMapEntry) :
    List (String × BoneMapEntry) → List (String × BoneMapEntry)
  | [] => [(k, v)]
  | (k', v') :: rest =>
      if k' = k then (k, v) :: rest else (k', v') :: dictInsert k v rest

/-- Mutable state threaded through the four passes: the results dict and
the claimed-target set. -/
structure MatchState where
  results : List (String × BoneMapEntry)
  used_targets : List String

/-- Value lookup in the comprehension `{f(bone): bone for bone in target_bones}`:
the last bone whose image under `f` equals `key` (later entries
overwrite earlier ones). -/
def comprehensionLookup (f : String → String) (key : String)
    (target_bones : List String) : Option String :=
  target_bones.reverse.find? (fun t => decide (f t = key))

/-- Pass 1 body for one source bone: case-insensitive exact match against
an unclaimed target. -/
def pass1Step (target_bones : List String) (s : MatchState) (ue5_bone : String) :
    MatchState :=
  match comprehensionLookup lowerStr (lowerStr ue5_bone) target_bones with
  | none => s
  | some target_bone =>
    if target_bone ∈ s.used_targets then s
    else
      ⟨dictInsert ue5_bone
        ⟨ue5_bone, target_bone, 1, ("HIGH"), ("exact_match"), true⟩ s.results,
       target_bone :: s.used_targets⟩

/-- Pass 2 body for one source bone: normalized exact match, skipping
bones already mapped. -/
def pass2Step (target_bones : List String) (s : MatchState) (ue5_bone : String) :
    MatchState :=
  if (dictLookup ue5_bone s.results).isSome then s
  else
    match comprehensionLookup normalize_bone_name (normalize_bone_name ue5_bone)
        target_bones with
    | none => s
    | some target_bone =>
      if target_bone ∈ s.used_targets then s
      else
        ⟨dictInsert ue5_bone
          ⟨ue5_bone, target_bone, 95/100, ("HIGH"), ("normalized_match"), true⟩ s.results,
         target_bone :: s.used_targets⟩

/-- Pass 3 inner search: scan the alias table in order; for the first
entries matching the lowercased source name, take the first unclaimed
target matching the same entry; keep scanning entries until a target is
found. -/
def pass3FindTarget (used : List String) (target_bones : List String)
    (ue5_lower : String) : List (String × List String) → Option String
  | [] => none
  | (canonical, aliases) :: rest =>
    if ue5_lower = canonical ∨ ue5_lower ∈ aliases then
      match target_bones.find? (fun t =>
          decide (t ∉ used ∧ (lowerStr t = canonical ∨ lowerStr t ∈ aliases))) with
      | some t => some t
      | none => pass3FindTarget used target_bones ue5_lower rest
    else pass3FindTarget used target_bones ue5_lower rest

/-- Pass 3 body for one source bone: alias-table match, skipping bones
already mapped. -/
def pass3Step (target_bones : List String) (s : MatchState) (ue5_bone : String) :
    MatchState :=
  if (dictLookup ue5_bone s.results).isSome then s
  else
    match pass3FindTarget s.used_targets target_bones (lowerStr ue5_bone)
        UE5_BONE_ALIASES with
    | none => s
    | some target_bone =>
      ⟨dictInsert ue5_bone
        ⟨ue5_bone, target_bone, 9/10, ("HIGH"), ("alias_match"), true⟩ s.results,
       target_bone :: s.used_targets⟩

/-- Pass 4 best-candidate scan over the remaining targets: skip claimed
targets, keep the first strictly-better candidate (`confidence >
best_confidence`). The accumulator is `(best_match, best_confidence,
best_reason)`. -/
def pickBest (ue5_bone : String) (used : List String) :
    List String → Option String × ℚ × String → Option String × ℚ × String
  | [], acc => acc
  | target_bone :: rest, acc =>
    if target_bone ∈ used then pickBest ue5_bone used rest acc
    else
      let cr := compute_match_confidence ue5_bone target_bone
      if acc.2.1 < cr.1 then pickBest ue5_bone used rest (some target_bone, cr.1, cr.2)
      else pickBest ue5_bone used rest acc

/-- Record the pass-4 outcome `bcr = (best_match, best_confidence,
best_reason)` for one source bone: category bucketing, the target kept
only at confidence at least 0.3, `enabled` at 0.5, and the target
claimed when the best match is truthy and at least 0.3 (Python
`if best_match and best_confidence >= 0.3`). -/
def pass4Insert (s : MatchState) (ue5_bone : String)
    (bcr : Option String × ℚ × String) : MatchState :=
  let category :=
    if 85/100 ≤ bcr.2.1 then ("HIGH")
    else if 5/10 ≤ bcr.2.1 then ("MEDIUM")
    else if bcr.1.isSome ∧ 3/10 ≤ bcr.2.1 then ("LOW")
    else ("NONE")
  let tb := if 3/10 ≤ bcr.2.1 then (bcr.1.getD ("")) else ("")
  let entry : BoneMapEntry :=
    ⟨ue5_bone, tb, bcr.2.1, category, bcr.2.2, decide (5/10 ≤ bcr.2.1)⟩
  let used' :=
    match bcr.1 with
    | some t => if t ≠ ("") ∧ 3/10 ≤ bcr.2.1 then t :: s.used_targets else s.used_targets
    | none => s.used_targets
  ⟨dictInsert ue5_bone entry s.results, used'⟩

/-- Pass 4 body for one remaining source bone: greedy fuzzy assignment
over the remaining targets. -/
def pass4Step (remaining_targets : List String) (s : MatchState) (ue5_bone : String) :
    MatchState :=
  pass4Insert s ue5_bone
    (pickBest ue5_bone s.used_targets remaining_targets (none, 0, ("no_match")))

/-- State after pass 1 (dict and claimed-set start empty). -/
def retargetPass1 (ue5_bones target_bones : List String) : MatchState :=
  ue5_bones.foldl (pass1Step target_bones) ⟨[], []⟩

/-- State after pass 2. -/
def retargetPass2 (ue5_bones target_bones : List String) : MatchState :=
  ue5_bones.foldl (pass2Step target_bones) (retargetPass1 ue5_bones target_bones)

/-- State after pass 3. -/
def retargetPass3 (ue5_bones target_bones : List String) : MatchState :=
  ue5_bones.foldl (pass3Step target_bones) (retargetPass2 ue5_bones target_bones)

/-- State after pass 4: the remaining source bones and unclaimed targets
are computed once from the pass-3 state, as in the source. -/
def retargetPass4 (ue5_bones target_bones : List String) : MatchState :=
  let s3 := retargetPass3 ue5_bones target_bones
  let remaining_ue5 := ue5_bones.filter (fun b => (dictLookup b s3.results).isNone)
  let remaining_targets := target_bones.filter (fun t => decide (t ∉ s3.used_targets))
  remaining_ue5.foldl (pass4Step remaining_targets) s3

/-- `build_bone_mapping`: run the four passes, then return the entries in
original source-bone order. -/
def build_bone_mapping (ue5_bones target_bones : List String) : List BoneMapEntry :=
  ue5_bones.filterMap (fun b => dictLookup b (retargetPass4 ue5_bones target_bones).results)

/-! ## Vertex-group merge (`merge_vertex_groups`)

A vertex group is a sparse map from vertex index to weight: reading an
absent index raises `RuntimeError` in the host API, so the model is
`ℕ → Option ℚ`.  The loop runs over the mesh's vertices; for each one,
if the source group has a weight and the target group also does, the
target weight is replaced by the mean; if only the source does, the
source weight is written; otherwise the vertex is skipped. -/

def merge_vertex_groups (num_vertices : ℕ) (source_vg target_vg : ℕ → Option ℚ) :
    ℕ → Option ℚ :=
  fun v =>
    if v < num_vertices then
      match source_vg v with
      | some sw =>
        match target_vg v with
        | some tw => some ((sw + tw) / 2)
        | none => some sw
      | none => target_vg v
    else target_vg v

/-! ## Retarget operator entry (`ASSETSBRIDGE_OT_RetargetSkeleton.execute`)

The prefix of `execute` before any scene mutation: validate the armature
references, build the enabled-mapping dict, and cancel when it is empty.
Everything from `align_skeleton_bones` on mutates the scene and is
modelled as an opaque continuation `rest`, invoked only after the
checks pass.  The scene itself is an arbitrary type: the cancel paths
return it untouched. -/

/-- Operator return status (`{'FINISHED'}` / `{'CANCELLED'}`). -/
inductive OpStatus where
  | finished
  | cancelled
deriving DecidableEq, Repr

/-- Insert into the `bone_map` dict (overwrite-on-insert). -/
def boneMapInsert (k v : String) : List (String × String) → List (String × String)
  | [] => [(k, v)]
  | (k', v') :: rest =>
      if k' = k then (k, v) :: rest else (k', v') :: boneMapInsert k v rest

/-- The scene-level retarget settings read by `execute`
(`SkeletonRetargetSettings`): whether the armature pointers are live,
and the stored mapping items. -/
structure RetargetSettings where
  has_source : Bool
  has_target : Bool
  bone_mappings : List BoneMapEntry

/-- The dict built by the loop `for mapping in settings.bone_mappings:
if mapping.enabled and mapping.target_bone: bone_map[...] = ...`. -/
def enabledBoneMap (mappings : List BoneMapEntry) : List (String × String) :=
  mappings.foldl
    (fun acc m =>
      if m.enabled = true ∧ m.target_bone ≠ ("") then
        boneMapInsert m.ue5_bone m.target_bone acc
      else acc)
    []

/-- `execute` up to its first mutation: cancel when an armature pointer
is dead or when no enabled mapping with a non-empty target exists;
otherwise run the mutating remainder `rest` (alignment, weight transfer,
hierarchy setup, cleanup). -/
def retarget_execute {Scene : Type} (settings : RetargetSettings)
    (rest : Scene → OpStatus × Scene) (scene : Scene) : OpStatus × Scene :=
  if settings.has_source = false ∨ settings.has_target = false then
    (OpStatus.cancelled, scene)
  else if enabledBoneMap settings.bone_mappings = [] then
    (OpStatus.cancelled, scene)
  else rest scene

/-! ## Mesh reparenting during weight transfer

Blender semantics: a parented object's world matrix is
`parent.matrix_world @ matrix_parent_inverse @ matrix_basis`.
`transfer_single_mesh_weights` reparents a mesh from the target to the
source armature by setting `parent = source` and
`matrix_parent_inverse = source.matrix_world.inverted()` (the inverse is
computed by the host and is an input here).  4×4 matrices over ℚ. -/

abbrev M4 : Type := Matrix (Fin 4) (Fin 4) ℚ

/-- A mesh's parenting state: its parent's world matrix, its
`matrix_parent_inverse`, and its `matrix_basis`. -/
structure ParentedMesh where
  parent_world : M4
  matrix_parent_inverse : M4
  matrix_basis : M4

/-- The world matrix of a parented object. -/
def mesh_world (m : ParentedMesh) : M4 :=
  m.parent_world * m.matrix_parent_inverse * m.matrix_basis

/-- The reparenting step of `transfer_single_mesh_weights` (lines
863–866): `mesh_obj.parent = source;
mesh_obj.matrix_parent_inverse = source.matrix_world.inverted()`.
The mesh's current world matrix is not used. -/
def transfer_weights_reparent (source_world source_world_inv : M4)
    (m : ParentedMesh) : ParentedMesh :=
  ⟨source_world, source_world_inv, m.matrix_basis⟩

/-- The reparenting step of `setup_hierarchy` (lines 679–688), for
contrast: it composes the inverse with the stored world matrix
(`matrix_parent_inverse = source.matrix_world.inverted() @ world_matrix`). -/
def setup_hierarchy_reparent (source_world source_world_inv : M4)
    (m : ParentedMesh) : ParentedMesh :=
  ⟨source_world, source_world_inv * mesh_world m, m.matrix_basis⟩

/-- Translation by one unit along x, as a homogeneous 4×4 matrix: a
concrete non-identity armature world transform. -/
def translationX : M4 :=
  fun i j => if i = j then 1 else if i = 0 ∧ j = 3 then 1 else 0

/-! ## Shape-key transfer: geometry

3D vectors as records; positions and deltas are over ℝ where lengths
(`Vector.length`, a square root) occur, and the barycentric computation
is generic in a linear ordered field since it uses only ring operations
and comparisons. -/

structure V3 (α : Type) where
  x : α
  y : α
  z : α
deriving DecidableEq, Repr

def vadd {α} [Add α] (a b : V3 α) : V3 α := ⟨a.x + b.x, a.y + b.y, a.z + b.z⟩

def vsub {α} [Sub α] (a b : V3 α) : V3 α := ⟨a.x - b.x, a.y - b.y, a.z - b.z⟩

def smul {α} [Mul α] (c : α) (v : V3 α) : V3 α := ⟨c * v.x, c * v.y, c * v.z⟩

def vdot {α} [Add α] [Mul α] (a b : V3 α) : α := a.x * b.x + a.y * b.y + a.z * b.z

/-- `mathutils.Vector.length`: Euclidean norm. -/
noncomputable def vlen (v : V3 ℝ) : ℝ := Real.sqrt (vdot v v)

/-! ## Barycentric weights (`compute_barycentric_weights`) -/

/-- The denominator `d00*d11 - d01*d01` of the dot-product barycentric
formula for the triangle `(v0, v1, v2)`. -/
def bary_denom {α} [LinearOrderedField α] (v0 v1 v2 : V3 α) : α :=
  vdot (vsub v1 v0) (vsub v1 v0) * vdot (vsub v2 v0) (vsub v2 v0)
    - vdot (vsub v1 v0) (vsub v2 v0) * vdot (vsub v1 v0) (vsub v2 v0)

/-- The clamp-and-renormalize tail of `compute_barycentric_weights`:
`weights = [max(0,u), max(0,v), max(0,w)]`, divided by their sum when it
is positive, else equal thirds. -/
def bary_normalize {α} [LinearOrderedField α] (u v w : α) : List α :=
  let weights := [max 0 u, max 0 v, max 0 w]
  let total := weights.sum
  if 0 < total then weights.map (fun x => x / total) else [1/3, 1/3, 1/3]

/-- `compute_barycentric_weights(point, triangle_verts)`: fewer than 3
vertices get equal weights; near-zero denominators (`abs(denom) < 1e-10`)
fall back to thirds; otherwise the standard dot-product formula with
negative clamping and renormalization, padded with zeros beyond 3. -/
def compute_barycentric_weights {α} [LinearOrderedField α] (point : V3 α)
    (triangle_verts : List (V3 α)) : List α :=
  if triangle_verts.length < 3 then
    triangle_verts.map (fun _ => 1 / (triangle_verts.length : α))
  else
    match triangle_verts with
    | v0 :: v1 :: v2 :: _ =>
      let v0v1 := vsub v1 v0
      let v0v2 := vsub v2 v0
      let v0p := vsub point v0
      let d00 := vdot v0v1 v0v1
      let d01 := vdot v0v1 v0v2
      let d11 := vdot v0v2 v0v2
      let d20 := vdot v0p v0v1
      let d21 := vdot v0p v0v2
      let denom := bary_denom v0 v1 v2
      if |denom| < 1 / 10 ^ 10 then [1/3, 1/3, 1/3]
      else
        let v := (d11 * d20 - d01 * d21) / denom
        let w := (d00 * d21 - d01 * d20) / denom
        let u := 1 - v - w
        bary_normalize u v w ++ List.replicate (triangle_verts.length - 3) 0
    | _ => []

/-! ## Topology-mode vertex mapping and delta application -/

/-- One entry of the vertex mapping (the Python dict with keys
`target_idx`, `source_indices`, `weights`, `distance`). -/
structure TopoMapEntry where
  target_idx : ℕ
  source_indices : List ℕ
  weights : List ℝ
  distance : ℝ

/-- `build_topology_mapping`: target vertex `i` corresponds to source
vertex `i`; the weight is 1 unless a positive threshold is exceeded by
the world-space distance of the rest positions, in which case it decays
linearly.  `src_mat`/`tgt_mat` are the objects' world transforms
(`matrix_world @ co`), host-applied maps here. -/
noncomputable def build_topology_mapping (num_target : ℕ)
    (src_mat tgt_mat : V3 ℝ → V3 ℝ) (src_co tgt_co : ℕ → V3 ℝ)
    (distance_threshold interpolation_falloff : ℝ) : List TopoMapEntry :=
  (List.range num_target).map (fun target_idx =>
    let source_world_pos := src_mat (src_co target_idx)
    let target_world_pos := tgt_mat (tgt_co target_idx)
    let distance := vlen (vsub source_world_pos target_world_pos)
    let weight :=
      if 0 < distance_threshold ∧ distance_threshold < distance then
        max 0 (1 - (distance - distance_threshold) * interpolation_falloff)
      else 1
    ⟨target_idx, [target_idx], [weight], distance⟩)

/-- The weighted-delta sum for one mapping entry: source indices beyond
the delta array are skipped (`if src_idx < len(source_deltas)`). -/
def interp_delta (source_indices : List ℕ) (weights : List ℝ)
    (source_deltas : ℕ → V3 ℝ) (num_source : ℕ) : V3 ℝ :=
  (source_indices.zip weights).foldl
    (fun acc iw =>
      if iw.1 < num_source then vadd acc (smul iw.2 (source_deltas iw.1)) else acc)
    ⟨0, 0, 0⟩

/-- The write loop of `apply_shape_key_deltas`: entries with empty
indices or weights are skipped; otherwise the new key's position at
`target_idx` becomes the target basis position plus the interpolated
delta. `init` is the new key's initial coordinate array. -/
def shape_delta_fold (target_basis_co : ℕ → V3 ℝ) (source_deltas : ℕ → V3 ℝ)
    (num_source : ℕ) (mapping : List TopoMapEntry) (init : ℕ → V3 ℝ) : ℕ → V3 ℝ :=
  mapping.foldl
    (fun co e =>
      if e.source_indices.isEmpty || e.weights.isEmpty then co
      else fun j =>
        if j = e.target_idx then
          vadd (target_basis_co e.target_idx)
            (interp_delta e.source_indices e.weights source_deltas num_source)
        else co j)
    init

/-- `apply_shape_key_deltas(source_basis, source_shape, target_shape,
target_mesh, vertex_mapping)`: deltas are `shape − basis` per source
vertex; the freshly added target key starts at the target basis
coordinates. -/
noncomputable def apply_shape_key_deltas (source_basis_co source_shape_co : ℕ → V3 ℝ)
    (num_source : ℕ) (target_basis_co : ℕ → V3 ℝ) (mapping : List TopoMapEntry) :
    ℕ → V3 ℝ :=
  shape_delta_fold target_basis_co
    (fun i => vsub (source_shape_co i) (source_basis_co i))
    num_source mapping target_basis_co

/-! ## Shape-key transfer loop (`transfer_shape_keys`) -/

/-- A shape-key block: name, per-vertex absolute positions, and slider
metadata. -/
structure SKey where
  name : String
  co : ℕ → V3 ℝ
  slider_min : ℝ
  slider_max : ℝ
  value : ℝ

/-- A mesh object as seen by the transfer: vertex count, rest vertex
positions, and its shape-key blocks (`key_blocks`, basis first). -/
structure MeshObj where
  num_vertices : ℕ
  verts : ℕ → V3 ℝ
  keys : List SKey

/-- `if not target_mesh.shape_keys: target_obj.shape_key_add(name="Basis")`:
a fresh Basis key holds the mesh's vertex positions and default slider
range. -/
def initial_target_keys (tgt : MeshObj) : List SKey :=
  if tgt.keys.isEmpty then [⟨("Basis"), tgt.verts, 0, 1, 0⟩] else tgt.keys

/-- The body of the transfer loop for one source key `sk`:
skip when the name exists and overwrite is off; remove the existing key
when overwrite is on; then add a new key (initial coordinates = the
mesh's vertex positions, sliders copied) and apply the deltas against
the current first key block. -/
noncomputable def transfer_one_key (source_basis_co : ℕ → V3 ℝ) (num_source : ℕ)
    (tgt_verts : ℕ → V3 ℝ) (mapping : List TopoMapEntry) (overwrite : Bool)
    (keys : List SKey) (sk : SKey) : List SKey :=
  if overwrite = false ∧ keys.any (fun k => k.name == sk.name) then keys
  else
    let keys1 := if overwrite = true then keys.eraseP (fun k => k.name == sk.name)
      else keys
    let newKey : SKey := ⟨sk.name, tgt_verts, sk.slider_min, sk.slider_max, sk.value⟩
    let basis := (keys1 ++ [newKey]).headD newKey
    let newCo := shape_delta_fold basis.co
      (fun i => vsub (sk.co i) (source_basis_co i)) num_source mapping tgt_verts
    keys1 ++ [⟨sk.name, newCo, sk.slider_min, sk.slider_max, sk.value⟩]

/-- `transfer_shape_keys(source_obj, target_obj)`: ensure a Basis on the
target, then transfer every source key after the basis.  The vertex
mapping (topology or closest-point, possibly built from the host's BVH
query) is an input. -/
noncomputable def transfer_shape_keys (src tgt : MeshObj) (overwrite : Bool)
    (mapping : List TopoMapEntry) : List SKey :=
  (src.keys.drop 1).foldl
    (transfer_one_key ((src.keys.headD ⟨("Basis"), src.verts, 0, 1, 0⟩).co)
      src.num_vertices tgt.verts mapping overwrite)
    (initial_target_keys tgt)

/-- The non-empty claimed targets of a results dict, in order. -/
def targetsOf : List (String × BoneMapEntry) → List String
  | [] => []
  | (_, e) :: rest =>
      if e.target_bone = ("") then targetsOf rest else e.target_bone :: targetsOf rest

/-- Invariant carried through the four matching passes: every non-empty
claimed target is in the used set, the claimed targets are pairwise
distinct, and every entry is stored under its own source-bone name. -/
structure MatchInv (s : MatchState) : Prop where
  tgts_nodup : (targetsOf s.results).Nodup
  tgts_used : ∀ t ∈ targetsOf s.results, t ∈ s.used_targets
  names_eq : ∀ p ∈ s.results, (Prod.snd p).ue5_bone = Prod.fst p

/-!
# Theorems
-/

/-! ## Generic dictionary lemmas -/

theorem dictLookup_mem {k : String} {m : List (String × BoneMapEntry)}
    {e : BoneMapEntry} (h : dictLookup k m = some e) : (k, e) ∈ m := by
  induction m with
  | nil => simp [dictLookup] at h
  | cons p rest ih =>
    obtain ⟨k', v⟩ := p
    by_cases hk : k' = k
    · subst hk
      simp [dictLookup] at h
      simp [h]
    · simp [dictLookup, hk] at h
      exact List.mem_cons_of_mem _ (ih h)

theorem mem_dictInsert {k : String} {v : BoneMapEntry}
    {m : List (String × BoneMapEntry)} {p : String × BoneMapEntry}
    (h : p ∈ dictInsert k v m) : p = (k, v) ∨ p ∈ m := by
  induction m with
  | nil => simpa [dictInsert] using h
  | cons q rest ih =>
    obtain ⟨k', v'⟩ := q
    by_cases hk : k' = k
    · subst hk
      simp [dictInsert] at h
      rcases h with h | h
      · exact Or.inl h
      · exact Or.inr (List.mem_cons_of_mem _ h)
    · simp only [dictInsert, if_neg hk, List.mem_cons] at h
      rcases h with h | h
      · exact Or.inr (by simp [h])
      · rcases ih h with h' | h'
        · exact Or.inl h'
        · exact Or.inr (List.mem_cons_of_mem _ h')

theorem targetsOf_mem {k : String} {e : BoneMapEntry}
    {m : List (String × BoneMapEntry)} (h : (k, e) ∈ m)
    (hne : e.target_bone ≠ ("")) : e.target_bone ∈ targetsOf m := by
  induction m with
  | nil => simp at h
  | cons q rest ih =>
    obtain ⟨k', e'⟩ := q
    rcases List.mem_cons.mp h with h | h
    · obtain ⟨h1, h2⟩ := Prod.mk.injEq .. ▸ h
      subst h2
      simp [targetsOf, hne]
    · by_cases he : e'.target_bone = ("")
      · simpa [targetsOf, he] using ih h
      · simp only [targetsOf, if_neg he, List.mem_cons]
        exact Or.inr (ih h)

theorem targetsOf_dictInsert_sub {k : String} {v : BoneMapEntry}
    {m : List (String × BoneMapEntry)} {t : String}
    (h : t ∈ targetsOf (dictInsert k v m)) :
    t = v.target_bone ∨ t ∈ targetsOf m := by
  induction m with
  | nil =>
    by_cases hv : v.target_bone = ("") <;>
      simp_all [dictInsert, targetsOf, hv]
  | cons q rest ih =>
    obtain ⟨k', e'⟩ := q
    by_cases hk : k' = k
    · subst hk
      by_cases hv : v.target_bone = ("")
      · by_cases he : e'.target_bone = ("") <;>
          simp_all [dictInsert, targetsOf, hv, he]
      · by_cases he : e'.target_bone = ("")
        · simp only [dictInsert, if_pos rfl, targetsOf, if_neg hv, List.mem_cons] at h
          rcases h with h | h
          · exact Or.inl h
          · exact Or.inr (by simpa [targetsOf, he] using h)
        · simp only [dictInsert, if_pos rfl, targetsOf, if_neg hv, List.mem_cons] at h
          rcases h with h | h
          · exact Or.inl h
          · exact Or.inr (by simp [targetsOf, if_neg he, List.mem_cons, h])
    · by_cases he : e'.target_bone = ("")
      · simp only [dictInsert, if_neg hk, targetsOf, if_pos he] at h
        simpa [targetsOf, he] using ih h
      · simp only [dictInsert, if_neg hk, targetsOf, if_neg he, List.mem_cons] at h
        rcases h with h | h
        · exact Or.inr (by simp [targetsOf, if_neg he, h])
        · rcases ih h with h' | h'
          · exact Or.inl h'
          · exact Or.inr (by simp [targetsOf, if_neg he, List.mem_cons, h'])

theorem targetsOf_dictInsert_nodup {k : String} {v : BoneMapEntry}
    {m : List (String × BoneMapEntry)} {used : List String}
    (h1 : (targetsOf m).Nodup) (h2 : ∀ t ∈ targetsOf m, t ∈ used)
    (h3 : v.target_bone = ("") ∨ v.target_bone ∉ used) :
    (targetsOf (dictInsert k v m)).Nodup := by
  induction m with
  | nil =>
    by_cases hv : v.target_bone = ("") <;> simp [dictInsert, targetsOf, hv]
  | cons q rest ih =>
    obtain ⟨k', e'⟩ := q
    by_cases he : e'.target_bone = ("")
    · have h1' : (targetsOf rest).Nodup := by simpa [targetsOf, he] using h1
      have h2' : ∀ t ∈ targetsOf rest, t ∈ used := by
        intro t ht
        exact h2 t (by simpa [targetsOf, he] using ht)
      by_cases hk : k' = k
      · subst hk
        by_cases hv : v.target_bone = ("")
        · simpa [dictInsert, targetsOf, hv] using h1'
        · simp only [dictInsert, if_pos rfl, targetsOf, if_neg hv]
          refine List.nodup_cons.mpr ⟨?_, h1'⟩
          intro hmem
          rcases h3 with h3 | h3
          · exact hv h3
          · exact h3 (h2' _ hmem)
      · simp only [dictInsert, if_neg hk, targetsOf, if_pos he]
        exact ih h1' h2'
    · have h1r : (targetsOf rest).Nodup := (List.nodup_cons.mp (by simpa [targetsOf, he] using h1)).2
      have h1n : e'.target_bone ∉ targetsOf rest :=
        (List.nodup_cons.mp (by simpa [targetsOf, he] using h1)).1
      have h2' : ∀ t ∈ targetsOf rest, t ∈ used := by
        intro t ht
        exact h2 t (by simp [targetsOf, he, List.mem_cons, ht])
      have h2e : e'.target_bone ∈ used := h2 _ (by simp [targetsOf, he])
      by_cases hk : k' = k
      · subst hk
        by_cases hv : v.target_bone = ("")
        · simpa [dictInsert, targetsOf, hv] using h1r
        · simp only [dictInsert, if_pos rfl, targetsOf, if_neg hv]
          refine List.nodup_cons.mpr ⟨?_, h1r⟩
          intro hmem
          rcases h3 with h3 | h3
          · exact hv h3
          · exact h3 (h2' _ hmem)
      · simp only [dictInsert, if_neg hk, targetsOf, if_neg he]
        refine List.nodup_cons.mpr ⟨?_, ih h1r h2'⟩
        intro hmem
        rcases targetsOf_dictInsert_sub hmem with h' | h'
        · rcases h3 with h3 | h3
          · exact he (h'.trans h3)
          · rw [h'] at h2e
            exact h3 h2e
        · exact h1n h'

theorem targetsOf_distinct {m : List (String × BoneMapEntry)}
    (hnd : (targetsOf m).Nodup) {k1 k2 : String} {e1 e2 : BoneMapEntry}
    (h1 : (k1, e1) ∈ m) (h2 : (k2, e2) ∈ m) (hk : k1 ≠ k2)
    (hne : e1.target_bone ≠ ("")) : e1.target_bone ≠ e2.target_bone := by
  induction m with
  | nil => simp at h1
  | cons q rest ih =>
    rcases List.mem_cons.mp h1 with hh1 | hh1 <;> rcases List.mem_cons.mp h2 with hh2 | hh2
    · rw [← hh2] at hh1
      exact absurd (show k1 = k2 from congrArg Prod.fst hh1) hk
    · subst hh1
      have h1n : e1.target_bone ∉ targetsOf rest := by
        have h' : (targetsOf ((k1, e1) :: rest)).Nodup := hnd
        simp only [targetsOf, if_neg hne] at h'
        exact (List.nodup_cons.mp h').1
      intro hcontra
      have hne2 : e2.target_bone ≠ ("") := by
        rw [← hcontra]
        exact hne
      have h2m := targetsOf_mem hh2 hne2
      rw [← hcontra] at h2m
      exact h1n h2m
    · subst hh2
      intro hcontra
      by_cases he2 : e2.target_bone = ("")
      · exact hne (hcontra.trans he2)
      · have h2n : e2.target_bone ∉ targetsOf rest := by
          have h' : (targetsOf ((k2, e2) :: rest)).Nodup := hnd
          simp only [targetsOf, if_neg he2] at h'
          exact (List.nodup_cons.mp h').1
        have h1m := targetsOf_mem hh1 hne
        rw [hcontra] at h1m
        exact h2n h1m
    · obtain ⟨k', e'⟩ := q
      have hndr : (targetsOf rest).Nodup := by
        by_cases he : e'.target_bone = ("")
        · simpa [targetsOf, he] using hnd
        · exact (List.nodup_cons.mp (by simpa [targetsOf, he] using hnd)).2
      exact ih hndr hh1 hh2

/-! ## Pass-step invariant preservation -/

theorem targetsOf_ne_empty {m : List (String × BoneMapEntry)} :
    ∀ t ∈ targetsOf m, t ≠ ("") := by
  induction m with
  | nil => simp [targetsOf]
  | cons q rest ih =>
    obtain ⟨k', e'⟩ := q
    by_cases he : e'.target_bone = ("")
    · simpa [targetsOf, he] using ih
    · intro t ht
      rcases List.mem_cons.mp (by simpa [targetsOf, he] using ht) with h | h
      · rw [h]
        exact he
      · exact ih t h

theorem insert_entry_inv {s : MatchState} {b : String} {e : BoneMapEntry}
    (hinv : MatchInv s) (hb : e.ue5_bone = b) (ht : e.target_bone ∉ s.used_targets) :
    MatchInv ⟨dictInsert b e s.results, e.target_bone :: s.used_targets⟩ := by
  refine ⟨?_, ?_, ?_⟩
  · exact targetsOf_dictInsert_nodup hinv.tgts_nodup hinv.tgts_used (Or.inr ht)
  · intro t' ht'
    rcases targetsOf_dictInsert_sub ht' with h | h
    · simp [h]
    · exact List.mem_cons_of_mem _ (hinv.tgts_used t' h)
  · intro p hp
    rcases mem_dictInsert hp with h | h
    · rw [h]
      exact hb
    · exact hinv.names_eq p h

theorem insert_entry_inv_empty {s : MatchState} {b : String} {e : BoneMapEntry}
    (hinv : MatchInv s) (hb : e.ue5_bone = b) (he : e.target_bone = ("")) :
    MatchInv ⟨dictInsert b e s.results, s.used_targets⟩ := by
  refine ⟨?_, ?_, ?_⟩
  · exact targetsOf_dictInsert_nodup hinv.tgts_nodup hinv.tgts_used (Or.inl he)
  · intro t' ht'
    rcases targetsOf_dictInsert_sub ht' with h | h
    · exact absurd (h.trans he) (targetsOf_ne_empty t' ht')
    · exact hinv.tgts_used t' h
  · intro p hp
    rcases mem_dictInsert hp with h | h
    · rw [h]
      exact hb
    · exact hinv.names_eq p h

theorem pass1Step_inv (target_bones : List String) (s : MatchState) (b : String)
    (hinv : MatchInv s) :
    MatchInv (pass1Step target_bones s b) ∧
      s.used_targets ⊆ (pass1Step target_bones s b).used_targets := by
  unfold pass1Step
  rcases h : comprehensionLookup lowerStr (lowerStr b) target_bones with _ | t
  · exact ⟨hinv, fun a ha => ha⟩
  · by_cases hu : t ∈ s.used_targets
    · simp only [if_pos hu]
      exact ⟨hinv, fun a ha => ha⟩
    · simp only [if_neg hu]
      exact ⟨insert_entry_inv hinv rfl hu, fun a ha => List.mem_cons_of_mem _ ha⟩

theorem pass2Step_inv (target_bones : List String) (s : MatchState) (b : String)
    (hinv : MatchInv s) :
    MatchInv (pass2Step target_bones s b) ∧
      s.used_targets ⊆ (pass2Step target_bones s b).used_targets := by
  unfold pass2Step
  by_cases hm : (dictLookup b s.results).isSome
  · simp only [if_pos hm]
    exact ⟨hinv, fun a ha => ha⟩
  · simp only [if_neg hm]
    rcases h : comprehensionLookup normalize_bone_name (normalize_bone_name b)
        target_bones with _ | t
    · exact ⟨hinv, fun a ha => ha⟩
    · by_cases hu : t ∈ s.used_targets
      · simp only [if_pos hu]
        exact ⟨hinv, fun a ha => ha⟩
      · simp only [if_neg hu]
        exact ⟨insert_entry_inv hinv rfl hu, fun a ha => List.mem_cons_of_mem _ ha⟩

theorem pass3FindTarget_not_used {used target_bones : List String}
    {ue5_lower : String} {tbl : List (String × List String)} {t : String}
    (h : pass3FindTarget used target_bones ue5_lower tbl = some t) :
    t ∉ used := by
  induction tbl with
  | nil => simp [pass3FindTarget] at h
  | cons e rest ih =>
    obtain ⟨canonical, aliases⟩ := e
    by_cases hc : ue5_lower = canonical ∨ ue5_lower ∈ aliases
    · simp only [pass3FindTarget, if_pos hc] at h
      rcases hf : target_bones.find? (fun t =>
          decide (t ∉ used ∧ (lowerStr t = canonical ∨ lowerStr t ∈ aliases))) with _ | t'
      · rw [hf] at h
        exact ih h
      · rw [hf] at h
        have hp := List.find?_some hf
        have hp' := of_decide_eq_true hp
        cases h
        exact hp'.1
    · simp only [pass3FindTarget, if_neg hc] at h
      exact ih h

theorem pass3Step_inv (target_bones : List String) (s : MatchState) (b : String)
    (hinv : MatchInv s) :
    MatchInv (pass3Step target_bones s b) ∧
      s.used_targets ⊆ (pass3Step target_bones s b).used_targets := by
  unfold pass3Step
  by_cases hm : (dictLookup b s.results).isSome
  · simp only [if_pos hm]
    exact ⟨hinv, fun a ha => ha⟩
  · simp only [if_neg hm]
    rcases h : pass3FindTarget s.used_targets target_bones (lowerStr b)
        UE5_BONE_ALIASES with _ | t
    · exact ⟨hinv, fun a ha => ha⟩
    · have hu : t ∉ s.used_targets := pass3FindTarget_not_used h
      exact ⟨insert_entry_inv hinv rfl hu, fun a ha => List.mem_cons_of_mem _ ha⟩

theorem pickBest_not_used {b : String} {used : List String}
    {targets : List String} {acc : Option String × ℚ × String} {t : String}
    (h : (pickBest b used targets acc).1 = some t) :
    acc.1 = some t ∨ t ∉ used := by
  induction targets generalizing acc with
  | nil =>
    simp only [pickBest] at h
    exact Or.inl h
  | cons tb rest ih =>
    by_cases hu : tb ∈ used
    · simp only [pickBest, if_pos hu] at h
      exact ih h
    · simp only [pickBest, if_neg hu] at h
      by_cases hlt : acc.2.1 < (compute_match_confidence b tb).1
      · rw [if_pos hlt] at h
        rcases ih h with h' | h'
        · have : tb = t := by
            simpa using h'
          rw [← this] at *
          exact Or.inr hu
        · exact Or.inr h'
      · rw [if_neg hlt] at h
        exact ih h

theorem pass4Insert_inv (s : MatchState) (b : String)
    (bcr : Option String × ℚ × String) (hinv : MatchInv s)
    (hbest : ∀ t, bcr.1 = some t → t ∉ s.used_targets) :
    MatchInv (pass4Insert s b bcr) ∧
      s.used_targets ⊆ (pass4Insert s b bcr).used_targets := by
  obtain ⟨best, conf, reason⟩ := bcr
  rcases best with _ | t
  · constructor
    · refine insert_entry_inv_empty hinv rfl ?_
      by_cases hc : (3:ℚ)/10 ≤ conf <;> simp [hc]
    · exact fun a ha => ha
  · have hnu : t ∉ s.used_targets := hbest t rfl
    by_cases hcond : t ≠ ("") ∧ (3:ℚ)/10 ≤ conf
    · simp only [pass4Insert, if_pos hcond, if_pos hcond.2, Option.getD_some]
      exact ⟨insert_entry_inv hinv rfl hnu, fun a ha => List.mem_cons_of_mem _ ha⟩
    · have htb : (if (3:ℚ)/10 ≤ conf then (some t).getD ("") else ("")) = ("") := by
        by_cases hc : (3:ℚ)/10 ≤ conf
        · rw [if_pos hc]
          simp only [Option.getD_some]
          by_contra hne
          exact hcond ⟨hne, hc⟩
        · rw [if_neg hc]
      simp only [pass4Insert, if_neg hcond, htb]
      exact ⟨insert_entry_inv_empty hinv rfl rfl, fun a ha => ha⟩

theorem pass4Step_inv (remaining_targets : List String) (s : MatchState) (b : String)
    (hinv : MatchInv s) :
    MatchInv (pass4Step remaining_targets s b) ∧
      s.used_targets ⊆ (pass4Step remaining_targets s b).used_targets := by
  unfold pass4Step
  refine pass4Insert_inv s b _ hinv ?_
  intro t ht
  rcases pickBest_not_used ht with h | h
  · simp at h
  · exact h

theorem foldl_matchInv {β : Type} {step : MatchState → β → MatchState}
    (hstep : ∀ s b, MatchInv s →
      MatchInv (step s b) ∧ s.used_targets ⊆ (step s b).used_targets)
    (l : List β) (s : MatchState) (hinv : MatchInv s) :
    MatchInv (l.foldl step s) ∧ s.used_targets ⊆ (l.foldl step s).used_targets := by
  induction l generalizing s with
  | nil => exact ⟨hinv, fun a ha => ha⟩
  | cons b rest ih =>
    have h1 := hstep s b hinv
    have h2 := ih (step s b) h1.1
    exact ⟨h2.1, fun a ha => h2.2 (h1.2 ha)⟩

theorem matchInv_init : MatchInv ⟨[], []⟩ := by
  refine ⟨?_, ?_, ?_⟩ <;> simp [targetsOf]

theorem retargetPass1_inv (u t : List String) : MatchInv (retargetPass1 u t) :=
  (foldl_matchInv (pass1Step_inv t) u ⟨[], []⟩ matchInv_init).1

theorem retargetPass2_inv (u t : List String) :
    MatchInv (retargetPass2 u t) ∧
      (retargetPass1 u t).used_targets ⊆ (retargetPass2 u t).used_targets :=
  foldl_matchInv (pass2Step_inv t) u (retargetPass1 u t) (retargetPass1_inv u t)

theorem retargetPass3_inv (u t : List String) :
    MatchInv (retargetPass3 u t) ∧
      (retargetPass2 u t).used_targets ⊆ (retargetPass3 u t).used_targets :=
  foldl_matchInv (pass3Step_inv t) u (retargetPass2 u t) (retargetPass2_inv u t).1

theorem retargetPass4_inv (u t : List String) :
    MatchInv (retargetPass4 u t) ∧
      (retargetPass3 u t).used_targets ⊆ (retargetPass4 u t).used_targets := by
  unfold retargetPass4
  exact foldl_matchInv
    (pass4Step_inv (t.filter (fun x => decide (x ∉ (retargetPass3 u t).used_targets))))
    (u.filter (fun b => (dictLookup b (retargetPass3 u t).results).isNone))
    (retargetPass3 u t) (retargetPass3_inv u t).1

theorem filterMap_lookup_names (m : List (String × BoneMapEntry))
    (hm : ∀ p ∈ m, (Prod.snd p).ue5_bone = Prod.fst p) (l : List String) :
    (l.filterMap (fun b => dictLookup b m)).map (fun e => e.ue5_bone)
      = l.filter (fun b => (dictLookup b m).isSome) := by
  induction l with
  | nil => simp
  | cons b rest ih =>
    rcases h : dictLookup b m with _ | e
    · simp [List.filterMap_cons, h, ih]
    · have hb : e.ue5_bone = b := hm (b, e) (dictLookup_mem h)
      simp [List.filterMap_cons, h, ih, hb]

/-- Claim C1: for every pair of input bone-name lists (bone names are
unique within a skeleton), the mapping returned by `build_bone_mapping`
never contains two distinct entries that are both enabled and share the
same non-empty `target_bone`; and the claimed-target set is monotonically
non-decreasing across the four matching passes. -/
theorem build_bone_mapping_unique_targets (ue5_bones target_bones : List String)
    (hnd : ue5_bones.Nodup) :
    (∀ i j (hi : i < (build_bone_mapping ue5_bones target_bones).length)
       (hj : j < (build_bone_mapping ue5_bones target_bones).length),
       i ≠ j →
       ((build_bone_mapping ue5_bones target_bones).get ⟨i, hi⟩).enabled = true →
       ((build_bone_mapping ue5_bones target_bones).get ⟨j, hj⟩).enabled = true →
       ((build_bone_mapping ue5_bones target_bones).get ⟨i, hi⟩).target_bone ≠ ("") →
       ((build_bone_mapping ue5_bones target_bones).get ⟨i, hi⟩).target_bone ≠
         ((build_bone_mapping ue5_bones target_bones).get ⟨j, hj⟩).target_bone) ∧
    (retargetPass1 ue5_bones target_bones).used_targets ⊆
      (retargetPass2 ue5_bones target_bones).used_targets ∧
    (retargetPass2 ue5_bones target_bones).used_targets ⊆
      (retargetPass3 ue5_bones target_bones).used_targets ∧
    (retargetPass3 ue5_bones target_bones).used_targets ⊆
      (retargetPass4 ue5_bones target_bones).used_targets := by
  have hinv4 := (retargetPass4_inv ue5_bones target_bones).1
  refine ⟨?_, (retargetPass2_inv ue5_bones target_bones).2,
    (retargetPass3_inv ue5_bones target_bones).2,
    (retargetPass4_inv ue5_bones target_bones).2⟩
  intro i j hi hj hij hei hej hnei
  have hmapnd :
      ((build_bone_mapping ue5_bones target_bones).map
        (fun e => e.ue5_bone)).Nodup := by
    unfold build_bone_mapping
    rw [filterMap_lookup_names _ hinv4.names_eq]
    exact hnd.filter _
  have hname :
      ((build_bone_mapping ue5_bones target_bones).get ⟨i, hi⟩).ue5_bone ≠
        ((build_bone_mapping ue5_bones target_bones).get ⟨j, hj⟩).ue5_bone := by
    intro heq
    have hgeti :
        ((build_bone_mapping ue5_bones target_bones).map
          (fun e => e.ue5_bone)).get ⟨i, by simpa using hi⟩ =
        ((build_bone_mapping ue5_bones target_bones).map
          (fun e => e.ue5_bone)).get ⟨j, by simpa using hj⟩ := by
      simp only [List.get_eq_getElem, List.getElem_map]
      exact heq
    have := hmapnd.get_inj_iff.mp hgeti
    exact hij (by simpa using congrArg Fin.val this)
  have hmemi : (build_bone_mapping ue5_bones target_bones).get ⟨i, hi⟩ ∈
      build_bone_mapping ue5_bones target_bones := List.get_mem _ _ _
  have hmemj : (build_bone_mapping ue5_bones target_bones).get ⟨j, hj⟩ ∈
      build_bone_mapping ue5_bones target_bones := List.get_mem _ _ _
  simp only [build_bone_mapping, List.mem_filterMap] at hmemi hmemj
  obtain ⟨b1, _, hb1⟩ := hmemi
  obtain ⟨b2, _, hb2⟩ := hmemj
  have hn1 : ((build_bone_mapping ue5_bones target_bones).get ⟨i, hi⟩).ue5_bone = b1 :=
    hinv4.names_eq _ (dictLookup_mem hb1)
  have hn2 : ((build_bone_mapping ue5_bones target_bones).get ⟨j, hj⟩).ue5_bone = b2 :=
    hinv4.names_eq _ (dictLookup_mem hb2)
  have hb12 : b1 ≠ b2 := by
    rw [← hn1, ← hn2]
    exact hname
  exact targetsOf_distinct hinv4.tgts_nodup (dictLookup_mem hb1) (dictLookup_mem hb2)
    hb12 hnei

/-- Claim C2 counterexample: `"r_lowerarm"` side-resolves LEFT (the
substring `_l` of `r_lowerarm` matches) and `"lowerarm_r"` resolves
RIGHT, yet `compute_match_confidence` returns `(0.95, alias_match)` —
the alias check fires before the side veto. -/
theorem side_veto_counterexample :
    get_side_from_name ("r_lowerarm") = ("left") ∧
    get_side_from_name ("lowerarm_r") = ("right") ∧
    compute_match_confidence ("r_lowerarm") ("lowerarm_r") ≠ (0, ("side_mismatch")) ∧
    compute_match_confidence ("r_lowerarm") ("lowerarm_r") = (95/100, ("alias_match")) := by
  with_unfolding_all decide

/-- Claim C2 (amended): when the normalized forms differ and the
alias-table check fails, side detection resolving one name LEFT and
the other RIGHT — in either orientation — forces exactly
`(0.0, side_mismatch)`, regardless of string similarity. -/
theorem side_veto_amended (a b : String)
    (h1 : normalize_bone_name a ≠ normalize_bone_name b)
    (h2 : aliasPairMatch (lowerStr a) (normalize_bone_name b) = false)
    (h3 : get_side_from_name a = ("left") ∧ get_side_from_name b = ("right")
      ∨ get_side_from_name a = ("right") ∧ get_side_from_name b = ("left")) :
    compute_match_confidence a b = (0, ("side_mismatch")) := by
  rcases h3 with ⟨h3, h4⟩ | ⟨h3, h4⟩ <;>
    simp [compute_match_confidence, h1, h2, h3, h4]

/-- Witness for the amended C2 at `("hand_r", "hand_l")`: the first
name resolves RIGHT and the second LEFT. -/
theorem side_veto_amended_witness :
    compute_match_confidence ("hand_r") ("hand_l") = (0, ("side_mismatch")) :=
  side_veto_amended ("hand_r") ("hand_l") (by with_unfolding_all decide)
    (by with_unfolding_all decide)
    (Or.inr (by with_unfolding_all decide))

/-- Claim C5 counterexample: `"Hips"` and `"hips"` both resolve to the
`pelvis` entry of the alias table, yet `compute_match_confidence`
returns `(1.0, exact_match)`: the normalized-equality check runs first,
not the alias lookup. -/
theorem alias_first_counterexample :
    aliasPairMatch (lowerStr ("Hips")) (normalize_bone_name ("hips")) = true ∧
    compute_match_confidence ("Hips") ("hips") ≠ (95/100, ("alias_match")) ∧
    compute_match_confidence ("Hips") ("hips") = (1, ("exact_match")) := by
  with_unfolding_all decide

/-- Claim C5 (amended): when the normalized forms are unequal, two names
resolving to the same canonical alias entry score exactly
`(0.95, alias_match)`; the alias lookup is the second rung of the
ladder, after the normalized-equality check. -/
theorem alias_match_amended (a b : String)
    (h1 : normalize_bone_name a ≠ normalize_bone_name b)
    (h2 : aliasPairMatch (lowerStr a) (normalize_bone_name b) = true) :
    compute_match_confidence a b = (95/100, ("alias_match")) := by
  simp [compute_match_confidence, h1, h2]

/-- Witness for the amended C5 at `("Spine1", "spine_01")`. -/
theorem alias_match_amended_witness :
    compute_match_confidence ("Spine1") ("spine_01") = (95/100, ("alias_match")) :=
  alias_match_amended ("Spine1") ("spine_01") (by with_unfolding_all decide)
    (by with_unfolding_all decide)

set_option maxRecDepth 40000 in
/-- Claim C3 counterexample: in the scenario of the claim, the entry for
`"Spine1"` is produced by the fuzzy pass with confidence 0.775, category
MEDIUM and reason fuzzy_high — not an alias/normalized HIGH match with
confidence at least 0.90 (`"Spine"` claims `spine_01` in pass 3 first). -/
theorem scenario_spine1_counterexample :
    (build_bone_mapping ["Hips", "Spine", "Spine1", "LeftArm"]
        ["pelvis", "spine_01", "spine_02", "upperarm_l"]).get
      ⟨2, by with_unfolding_all decide⟩ =
    ⟨("Spine1"), ("spine_02"), 775/1000, ("MEDIUM"), ("fuzzy_high"), true⟩ := by
  with_unfolding_all decide

set_option maxRecDepth 40000 in
/-- Claim C3 (amended): the scenario's full output — `Hips`, `Spine` and
`LeftArm` map by alias_match at 0.90/HIGH, while `Spine1` maps to
`spine_02` by fuzzy_high at 0.775/MEDIUM. -/
theorem scenario_alias_mapping :
    build_bone_mapping ["Hips", "Spine", "Spine1", "LeftArm"]
        ["pelvis", "spine_01", "spine_02", "upperarm_l"] =
    [⟨("Hips"), ("pelvis"), 9/10, ("HIGH"), ("alias_match"), true⟩,
     ⟨("Spine"), ("spine_01"), 9/10, ("HIGH"), ("alias_match"), true⟩,
     ⟨("Spine1"), ("spine_02"), 775/1000, ("MEDIUM"), ("fuzzy_high"), true⟩,
     ⟨("LeftArm"), ("upperarm_l"), 9/10, ("HIGH"), ("alias_match"), true⟩] := by
  with_unfolding_all decide

/-- Claim C6: vertex-group merge is commutative (on groups supported
within the mesh's vertices); where both groups define a weight the
result is the arithmetic mean (0.6 and 0.4 merge to exactly 0.5), and
where only one defines it that value is kept. -/
theorem merge_vertex_groups_mean_comm (n : ℕ) (f g : ℕ → Option ℚ)
    (hf : ∀ v, n ≤ v → f v = none) (hg : ∀ v, n ≤ v → g v = none) :
    (∀ v, merge_vertex_groups n f g v = merge_vertex_groups n g f v) ∧
    (∀ v a b, f v = some a → g v = some b →
      merge_vertex_groups n f g v = some ((a + b) / 2)) ∧
    (∀ v a, f v = some a → g v = none → merge_vertex_groups n f g v = some a) ∧
    (∀ v, f v = none → merge_vertex_groups n f g v = g v) ∧
    (∀ v, f v = some (6/10) → g v = some (4/10) →
      merge_vertex_groups n f g v = some (1/2)) := by
  refine ⟨?_, ?_, ?_, ?_, ?_⟩
  · intro v
    by_cases hv : v < n
    · rcases hfv : f v with _ | a <;> rcases hgv : g v with _ | b <;>
        simp [merge_vertex_groups, if_pos hv, hfv, hgv, add_comm]
    · have hfv := hf v (le_of_not_lt hv)
      have hgv := hg v (le_of_not_lt hv)
      simp [merge_vertex_groups, if_neg hv, hfv, hgv]
  · intro v a b hfv hgv
    by_cases hv : v < n
    · simp [merge_vertex_groups, if_pos hv, hfv, hgv]
    · exact absurd (hfv.symm.trans (hf v (le_of_not_lt hv))) (by simp)
  · intro v a hfv hgv
    by_cases hv : v < n
    · simp [merge_vertex_groups, if_pos hv, hfv, hgv]
    · exact absurd (hfv.symm.trans (hf v (le_of_not_lt hv))) (by simp)
  · intro v hfv
    by_cases hv : v < n
    · simp [merge_vertex_groups, if_pos hv, hfv]
    · simp [merge_vertex_groups, if_neg hv]
  · intro v hfv hgv
    by_cases hv : v < n
    · simp only [merge_vertex_groups, if_pos hv, hfv, hgv]
      norm_num
    · exact absurd (hfv.symm.trans (hf v (le_of_not_lt hv))) (by simp)

/-- Witness for C6: two singleton groups with weights 0.6 and 0.4 at
vertex 0 of a one-vertex mesh merge to 0.5. -/
theorem merge_vertex_groups_witness :
    merge_vertex_groups 1 (fun v => if v = 0 then some (6/10) else none)
      (fun v => if v = 0 then some (4/10) else none) 0 = some (1/2) :=
  (merge_vertex_groups_mean_comm 1 _ _
      (fun v hv => if_neg (by omega)) (fun v hv => if_neg (by omega))).2.2.2.2 0
    (by simp) (by simp)

/-- Claim C9: when no mapping entry is enabled with a non-empty target
bone, the retarget operator returns CANCELLED and the scene — whatever
its state type — is returned exactly as it was; the mutating remainder
is never invoked. -/
theorem retarget_execute_cancelled {Scene : Type} (settings : RetargetSettings)
    (rest : Scene → OpStatus × Scene) (scene : Scene)
    (h : ∀ m ∈ settings.bone_mappings, ¬(m.enabled = true ∧ m.target_bone ≠ (""))) :
    retarget_execute settings rest scene = (OpStatus.cancelled, scene) := by
  have hfold : ∀ (l : List BoneMapEntry) (acc : List (String × String)),
      (∀ m ∈ l, ¬(m.enabled = true ∧ m.target_bone ≠ (""))) →
      l.foldl (fun acc m =>
        if m.enabled = true ∧ m.target_bone ≠ ("") then
          boneMapInsert m.ue5_bone m.target_bone acc
        else acc) acc = acc := by
    intro l
    induction l with
    | nil => intro acc _; rfl
    | cons m rest ih =>
      intro acc hall
      have hm := hall m (List.mem_cons_self m rest)
      simp only [List.foldl_cons, if_neg hm]
      exact ih acc (fun x hx => hall x (List.mem_cons_of_mem _ hx))
  have hmap : enabledBoneMap settings.bone_mappings = [] :=
    hfold settings.bone_mappings [] h
  unfold retarget_execute
  rw [hmap]
  by_cases hs : settings.has_source = false ∨ settings.has_target = false
  · rw [if_pos hs]
  · rw [if_neg hs, if_pos rfl]

/-- Witness for C9: one disabled mapping entry, a live scene of type ℕ,
and a remainder that would mutate it — the operator cancels and returns
the scene unchanged. -/
theorem retarget_execute_cancelled_witness :
    retarget_execute
      ⟨true, true, [⟨("Hips"), ("pelvis"), 9/10, ("HIGH"), ("alias_match"), false⟩]⟩
      (fun s : ℕ => (OpStatus.finished, s + 1)) 0 = (OpStatus.cancelled, 0) :=
  retarget_execute_cancelled _ _ _ (by decide)

/-- Claim C4 (code bug): the weight-transfer reparenting step sets
`matrix_parent_inverse` to the bare inverse of the source world matrix,
discarding the mesh's current world matrix, so the mesh's world
transform is not preserved: a mesh world-positioned by a translated
target armature (world `translationX`, parent inverse and basis
identity) ends at the identity world transform after the step, even
though the supplied inverse really is the inverse of the source world
matrix. -/
theorem transfer_reparent_changes_world :
    mesh_world ⟨translationX, 1, 1⟩ = translationX ∧
    mesh_world (transfer_weights_reparent 1 1 ⟨translationX, 1, 1⟩) = 1 ∧
    (1 : M4) * (1 : M4) = 1 ∧
    mesh_world (transfer_weights_reparent 1 1 ⟨translationX, 1, 1⟩) ≠
      mesh_world ⟨translationX, 1, 1⟩ := by
  have h1 : mesh_world (⟨translationX, 1, 1⟩ : ParentedMesh) = translationX := by
    simp [mesh_world]
  have h2 : mesh_world (transfer_weights_reparent 1 1 ⟨translationX, 1, 1⟩) = 1 := by
    simp [mesh_world, transfer_weights_reparent]
  refine ⟨h1, h2, one_mul 1, ?_⟩
  rw [h1, h2]
  intro h
  have hc := congrFun (congrFun h 0) 3
  rw [Matrix.one_apply_ne (by decide : (0 : Fin 4) ≠ 3)] at hc
  have : (0 : ℚ) = 1 := by
    rw [hc]
    simp [translationX]
  exact absurd this (by norm_num)

set_option maxRecDepth 40000 in
/-- Witness for C1 at two identical two-bone skeletons: the two entries
(both enabled, non-empty targets) claim different targets. -/
theorem build_bone_mapping_unique_targets_witness :
    ((build_bone_mapping ["A", "B"] ["A", "B"]).get
        ⟨0, by with_unfolding_all decide⟩).target_bone ≠
      ((build_bone_mapping ["A", "B"] ["A", "B"]).get
        ⟨1, by with_unfolding_all decide⟩).target_bone :=
  (build_bone_mapping_unique_targets ["A", "B"] ["A", "B"] (by decide)).1 0 1
    (by with_unfolding_all decide) (by with_unfolding_all decide) (by decide)
    (by with_unfolding_all decide) (by with_unfolding_all decide)
    (by with_unfolding_all decide)

theorem bary_normalize_bounds {α : Type} [LinearOrderedField α] (u v w : α)
    (h : u + v + w = 1) :
    (∀ x ∈ bary_normalize u v w, 0 ≤ x) ∧ (bary_normalize u v w).sum ≤ 1 := by
  unfold bary_normalize
  have hsum : ([max 0 u, max 0 v, max 0 w] : List α).sum
      = max 0 u + (max 0 v + max 0 w) := by
    simp
  have htot : (1 : α) ≤ max 0 u + (max 0 v + max 0 w) := by
    calc (1 : α) = u + (v + w) := by rw [← h]; ring
    _ ≤ max 0 u + (max 0 v + max 0 w) := by
      gcongr <;> exact le_max_right 0 _
  have hpos : 0 < ([max 0 u, max 0 v, max 0 w] : List α).sum := by
    rw [hsum]
    linarith
  rw [if_pos hpos]
  constructor
  · intro x hx
    simp only [List.mem_map] at hx
    obtain ⟨y, hy, rfl⟩ := hx
    have hy0 : 0 ≤ y := by
      simp only [List.mem_cons, List.not_mem_nil, or_false] at hy
      rcases hy with rfl | rfl | rfl <;> exact le_max_left 0 _
    exact div_nonneg hy0 (le_of_lt hpos)
  · simp only [List.map_cons, List.map_nil, List.sum_cons, List.sum_nil, add_zero] at hpos ⊢
    rw [div_add_div_same, div_add_div_same]
    exact le_of_eq (div_self (ne_of_gt hpos))

/-- Claim C8: for every query point and triangle, the barycentric
weights are individually at least 0 and sum to at most 1, and a
degenerate triangle (`abs(denom) < 1e-10`) yields exactly
(1/3, 1/3, 1/3). -/
theorem barycentric_weights_bounds (p a b c : V3 ℚ) :
    (∀ x ∈ compute_barycentric_weights p [a, b, c], 0 ≤ x) ∧
    (compute_barycentric_weights p [a, b, c]).sum ≤ 1 ∧
    (|bary_denom a b c| < 1 / 10 ^ 10 →
      compute_barycentric_weights p [a, b, c] = [1/3, 1/3, 1/3]) := by
  by_cases hd : |bary_denom a b c| < 1 / 10 ^ 10
  · have hred : compute_barycentric_weights p [a, b, c] = [1/3, 1/3, 1/3] := by
      unfold compute_barycentric_weights
      rw [if_neg (by norm_num : ¬([a, b, c].length < 3))]
      exact if_pos hd
    refine ⟨?_, ?_, fun _ => hred⟩
    · rw [hred]
      intro x hx
      simp only [List.mem_cons, List.not_mem_nil, or_false] at hx
      rcases hx with rfl | rfl | rfl <;> norm_num
    · rw [hred]
      norm_num
  · have hred0 : compute_barycentric_weights p [a, b, c] =
        bary_normalize
          (1 - (vdot (vsub c a) (vsub c a) * vdot (vsub p a) (vsub b a)
                - vdot (vsub b a) (vsub c a) * vdot (vsub p a) (vsub c a))
               / bary_denom a b c
             - (vdot (vsub b a) (vsub b a) * vdot (vsub p a) (vsub c a)
                - vdot (vsub b a) (vsub c a) * vdot (vsub p a) (vsub b a))
               / bary_denom a b c)
          ((vdot (vsub c a) (vsub c a) * vdot (vsub p a) (vsub b a)
            - vdot (vsub b a) (vsub c a) * vdot (vsub p a) (vsub c a))
           / bary_denom a b c)
          ((vdot (vsub b a) (vsub b a) * vdot (vsub p a) (vsub c a)
            - vdot (vsub b a) (vsub c a) * vdot (vsub p a) (vsub b a))
           / bary_denom a b c)
          ++ List.replicate ([a, b, c].length - 3) (0 : ℚ) := by
      unfold compute_barycentric_weights
      rw [if_neg (by norm_num : ¬([a, b, c].length < 3))]
      exact if_neg hd
    rw [show List.replicate ([a, b, c].length - 3) (0 : ℚ) = [] from rfl,
      List.append_nil] at hred0
    have hb := bary_normalize_bounds
      (α := ℚ)
      (1 - (vdot (vsub c a) (vsub c a) * vdot (vsub p a) (vsub b a)
            - vdot (vsub b a) (vsub c a) * vdot (vsub p a) (vsub c a))
           / bary_denom a b c
         - (vdot (vsub b a) (vsub b a) * vdot (vsub p a) (vsub c a)
            - vdot (vsub b a) (vsub c a) * vdot (vsub p a) (vsub b a))
           / bary_denom a b c)
      ((vdot (vsub c a) (vsub c a) * vdot (vsub p a) (vsub b a)
        - vdot (vsub b a) (vsub c a) * vdot (vsub p a) (vsub c a))
       / bary_denom a b c)
      ((vdot (vsub b a) (vsub b a) * vdot (vsub p a) (vsub c a)
        - vdot (vsub b a) (vsub c a) * vdot (vsub p a) (vsub b a))
       / bary_denom a b c)
      (by ring)
    refine ⟨?_, ?_, fun hcontra => absurd hcontra hd⟩
    · rw [hred0]
      exact hb.1
    · rw [hred0]
      exact hb.2

/-- Witness for C8 at a fully degenerate (zero-area) triangle: the
weights are exactly equal thirds. -/
theorem barycentric_weights_bounds_witness :
    compute_barycentric_weights (⟨1, 2, 3⟩ : V3 ℚ)
      [⟨0, 0, 0⟩, ⟨0, 0, 0⟩, ⟨0, 0, 0⟩] = [1/3, 1/3, 1/3] :=
  (barycentric_weights_bounds ⟨1, 2, 3⟩ ⟨0, 0, 0⟩ ⟨0, 0, 0⟩ ⟨0, 0, 0⟩).2.2
    (by with_unfolding_all decide)

theorem vsub_self_v3 (v : V3 ℝ) : vsub v v = ⟨0, 0, 0⟩ := by
  cases v
  simp [vsub]

theorem vlen_zero_v3 : vlen ⟨0, 0, 0⟩ = 0 := by
  have : vdot (⟨0, 0, 0⟩ : V3 ℝ) ⟨0, 0, 0⟩ = 0 := by
    simp [vdot]
  simp [vlen, this, Real.sqrt_zero]

theorem vadd_zero_smul_one (d : V3 ℝ) : vadd ⟨0, 0, 0⟩ (smul 1 d) = d := by
  cases d
  simp [vadd, smul]

theorem build_topology_mapping_entry (n : ℕ) (src_mat tgt_mat : V3 ℝ → V3 ℝ)
    (src_co tgt_co : ℕ → V3 ℝ) (dt fall : ℝ)
    (hrest : ∀ i, i < n → src_mat (src_co i) = tgt_mat (tgt_co i)) :
    ∀ e ∈ build_topology_mapping n src_mat tgt_mat src_co tgt_co dt fall,
      e.weights = [1] ∧ e.source_indices = [e.target_idx] ∧ e.target_idx < n := by
  intro e he
  unfold build_topology_mapping at he
  rw [List.mem_map] at he
  obtain ⟨i, hi, rfl⟩ := he
  have hin : i < n := List.mem_range.mp hi
  have hw : (if 0 < dt ∧ dt < vlen (vsub (src_mat (src_co i)) (tgt_mat (tgt_co i))) then
      max 0 (1 - (vlen (vsub (src_mat (src_co i)) (tgt_mat (tgt_co i))) - dt) * fall)
    else 1) = 1 := by
    rw [hrest i hin, vsub_self_v3, vlen_zero_v3]
    rw [if_neg]
    rintro ⟨h1, h2⟩
    linarith
  exact ⟨by simp only [hw], rfl, hin⟩

theorem topology_apply_aux (src_mat tgt_mat : V3 ℝ → V3 ℝ) (src_co tgt_co : ℕ → V3 ℝ)
    (dt fall : ℝ) (source_deltas : ℕ → V3 ℝ) (basis_co : ℕ → V3 ℝ) (num_source : ℕ) :
    ∀ n, n ≤ num_source → (∀ i, i < n → src_mat (src_co i) = tgt_mat (tgt_co i)) →
    ∀ i, i < n →
      shape_delta_fold basis_co source_deltas num_source
        (build_topology_mapping n src_mat tgt_mat src_co tgt_co dt fall) basis_co i =
      vadd (basis_co i) (source_deltas i) := by
  intro n
  induction n with
  | zero => intro _ _ i hi; omega
  | succ m ih =>
    intro hle hrest i hi
    have hbuild : build_topology_mapping (m + 1) src_mat tgt_mat src_co tgt_co dt fall =
        build_topology_mapping m src_mat tgt_mat src_co tgt_co dt fall ++
          [⟨m, [m],
            [if 0 < dt ∧ dt < vlen (vsub (src_mat (src_co m)) (tgt_mat (tgt_co m))) then
                max 0 (1 - (vlen (vsub (src_mat (src_co m)) (tgt_mat (tgt_co m))) - dt) * fall)
              else 1],
            vlen (vsub (src_mat (src_co m)) (tgt_mat (tgt_co m)))⟩] := by
      unfold build_topology_mapping
      rw [List.range_succ, List.map_append]
      rfl
    have hw : (if 0 < dt ∧ dt < vlen (vsub (src_mat (src_co m)) (tgt_mat (tgt_co m))) then
        max 0 (1 - (vlen (vsub (src_mat (src_co m)) (tgt_mat (tgt_co m))) - dt) * fall)
      else 1) = 1 := by
      rw [hrest m (Nat.lt_succ_self m), vsub_self_v3, vlen_zero_v3]
      rw [if_neg]
      rintro ⟨h1, h2⟩
      linarith
    rw [hbuild]
    unfold shape_delta_fold
    rw [List.foldl_append]
    simp only [List.foldl_cons, List.foldl_nil]
    rw [hw]
    rw [if_neg (by simp)]
    by_cases him : i = m
    · subst him
      rw [if_pos rfl]
      have : interp_delta [i] [1] source_deltas num_source = source_deltas i := by
        unfold interp_delta
        simp only [List.zip_cons_cons, List.zip_nil_right, List.foldl_cons, List.foldl_nil]
        rw [if_pos (by omega : i < num_source)]
        exact vadd_zero_smul_one (source_deltas i)
      rw [this]
    · rw [if_neg him]
      have hprev := ih (by omega) (fun j hj => hrest j (by omega)) i (by omega)
      unfold shape_delta_fold at hprev
      exact hprev

/-- Claim C7: with equal vertex counts and identical world-space rest
positions, topology-mode transfer is the identity on deltas: every
mapping entry has weight exactly 1 and maps target vertex i to source
vertex i, and every transferred position is the target basis position
plus the source delta. -/
theorem topology_transfer_identity (n : ℕ) (src_mat tgt_mat : V3 ℝ → V3 ℝ)
    (src_co tgt_co : ℕ → V3 ℝ) (dt fall : ℝ)
    (src_basis_co src_shape_co tgt_basis_co : ℕ → V3 ℝ)
    (hrest : ∀ i, i < n → src_mat (src_co i) = tgt_mat (tgt_co i)) :
    (∀ e ∈ build_topology_mapping n src_mat tgt_mat src_co tgt_co dt fall,
       e.weights = [1] ∧ e.source_indices = [e.target_idx]) ∧
    (∀ i, i < n →
       apply_shape_key_deltas src_basis_co src_shape_co n tgt_basis_co
         (build_topology_mapping n src_mat tgt_mat src_co tgt_co dt fall) i =
       vadd (tgt_basis_co i) (vsub (src_shape_co i) (src_basis_co i))) := by
  constructor
  · intro e he
    have h := build_topology_mapping_entry n src_mat tgt_mat src_co tgt_co dt fall
      hrest e he
    exact ⟨h.1, h.2.1⟩
  · intro i hi
    unfold apply_shape_key_deltas
    exact topology_apply_aux src_mat tgt_mat src_co tgt_co dt fall
      (fun j => vsub (src_shape_co j) (src_basis_co j)) tgt_basis_co n n le_rfl
      hrest i hi

/-- Witness for C7: a one-vertex mesh pair with identical rest
positions; the transferred position is the basis plus the source delta. -/
theorem topology_transfer_identity_witness :
    apply_shape_key_deltas (fun _ => ⟨0, 0, 0⟩) (fun _ => ⟨1, 0, 0⟩) 1
      (fun _ => ⟨0, 0, 0⟩)
      (build_topology_mapping 1 id id (fun _ => ⟨0, 0, 0⟩) (fun _ => ⟨0, 0, 0⟩) 0 0) 0 =
    vadd ⟨0, 0, 0⟩ (vsub ⟨1, 0, 0⟩ ⟨0, 0, 0⟩) :=
  (topology_transfer_identity 1 id id (fun _ => ⟨0, 0, 0⟩) (fun _ => ⟨0, 0, 0⟩) 0 0
    (fun _ => ⟨0, 0, 0⟩) (fun _ => ⟨1, 0, 0⟩) (fun _ => ⟨0, 0, 0⟩)
    (fun _ _ => rfl)).2 0 (by omega)

theorem transfer_one_key_sub (source_basis_co : ℕ → V3 ℝ) (num_source : ℕ)
    (tgt_verts : ℕ → V3 ℝ) (mapping : List TopoMapEntry) (overwrite : Bool)
    (keys : List SKey) (sk : SKey) :
    ∀ k ∈ transfer_one_key source_basis_co num_source tgt_verts mapping overwrite
        keys sk, k ∈ keys ∨ k.name = sk.name := by
  intro k hk
  by_cases hskip : overwrite = false ∧ keys.any (fun k => k.name == sk.name)
  · rw [transfer_one_key, if_pos hskip] at hk
    exact Or.inl hk
  · simp only [transfer_one_key, if_neg hskip] at hk
    rcases List.mem_append.mp hk with h | h
    · by_cases how : overwrite = true
      · rw [if_pos how] at h
        exact Or.inl ((List.eraseP_sublist keys).subset h)
      · rw [if_neg how] at h
        exact Or.inl h
    · simp only [List.mem_cons, List.not_mem_nil, or_false] at h
      rw [h]
      exact Or.inr rfl

theorem transfer_one_key_keep (source_basis_co : ℕ → V3 ℝ) (num_source : ℕ)
    (tgt_verts : ℕ → V3 ℝ) (mapping : List TopoMapEntry) (overwrite : Bool)
    (keys : List SKey) (sk : SKey) (k : SKey) (hk : k ∈ keys)
    (hcond : overwrite = false ∨ k.name ≠ sk.name) :
    k ∈ transfer_one_key source_basis_co num_source tgt_verts mapping overwrite
      keys sk := by
  by_cases hskip : overwrite = false ∧ keys.any (fun k => k.name == sk.name)
  · rw [transfer_one_key, if_pos hskip]
    exact hk
  · simp only [transfer_one_key, if_neg hskip]
    refine List.mem_append.mpr (Or.inl ?_)
    by_cases how : overwrite = true
    · rw [if_pos how]
      rcases hcond with hc | hc
      · rw [hc] at how
        cases how
      · exact (List.mem_eraseP_of_neg (by simp [hc])).mpr hk
    · rw [if_neg how]
      exact hk

theorem transfer_fold_sub (source_basis_co : ℕ → V3 ℝ) (num_source : ℕ)
    (tgt_verts : ℕ → V3 ℝ) (mapping : List TopoMapEntry) (overwrite : Bool) :
    ∀ (l : List SKey) (keys : List SKey) (k : SKey),
      k ∈ l.foldl (transfer_one_key source_basis_co num_source tgt_verts mapping
        overwrite) keys →
      k ∈ keys ∨ k.name ∈ l.map SKey.name := by
  intro l
  induction l with
  | nil => intro keys k hk; exact Or.inl hk
  | cons sk rest ih =>
    intro keys k hk
    rw [List.foldl_cons] at hk
    rcases ih _ k hk with h | h
    · rcases transfer_one_key_sub source_basis_co num_source tgt_verts mapping
          overwrite keys sk k h with h' | h'
      · exact Or.inl h'
      · exact Or.inr (by simp [h'])
    · exact Or.inr (by simp [h])

theorem transfer_fold_keep (source_basis_co : ℕ → V3 ℝ) (num_source : ℕ)
    (tgt_verts : ℕ → V3 ℝ) (mapping : List TopoMapEntry) (overwrite : Bool) :
    ∀ (l : List SKey) (keys : List SKey) (k : SKey), k ∈ keys →
      (overwrite = false ∨ k.name ∉ l.map SKey.name) →
      k ∈ l.foldl (transfer_one_key source_basis_co num_source tgt_verts mapping
        overwrite) keys := by
  intro l
  induction l with
  | nil => intro keys k hk _; exact hk
  | cons sk rest ih =>
    intro keys k hk hcond
    rw [List.foldl_cons]
    have hstep : k ∈ transfer_one_key source_basis_co num_source tgt_verts mapping
        overwrite keys sk := by
      refine transfer_one_key_keep source_basis_co num_source tgt_verts mapping
        overwrite keys sk k hk ?_
      rcases hcond with hc | hc
      · exact Or.inl hc
      · refine Or.inr ?_
        intro hname
        exact hc (by simp [hname])
    refine ih _ k hstep ?_
    rcases hcond with hc | hc
    · exact Or.inl hc
    · refine Or.inr ?_
      intro hname
      exact hc (by simp [hname])

/-- Claim C10: shape-key transfer creates a Basis key on a target with
no keys, writes vertex positions only into the newly added keys (every
result key is either an untouched key of the initial target state —
Basis included — or a new key named after a transferred source key),
deletes an existing key only when overwrite is requested, and leaves
every other target key unchanged. -/
theorem transfer_shape_keys_frame (src tgt : MeshObj) (overwrite : Bool)
    (mapping : List TopoMapEntry) :
    (tgt.keys = [] → initial_target_keys tgt = [⟨("Basis"), tgt.verts, 0, 1, 0⟩]) ∧
    (tgt.keys ≠ [] → initial_target_keys tgt = tgt.keys) ∧
    (∀ k ∈ transfer_shape_keys src tgt overwrite mapping,
       k ∈ initial_target_keys tgt ∨ k.name ∈ (src.keys.drop 1).map SKey.name) ∧
    (∀ k ∈ initial_target_keys tgt, overwrite = false →
       k ∈ transfer_shape_keys src tgt overwrite mapping) ∧
    (∀ k ∈ initial_target_keys tgt, k.name ∉ (src.keys.drop 1).map SKey.name →
       k ∈ transfer_shape_keys src tgt overwrite mapping) := by
  refine ⟨?_, ?_, ?_, ?_, ?_⟩
  · intro h
    simp [initial_target_keys, h]
  · intro h
    simp [initial_target_keys, List.isEmpty_eq_true, h]
  · intro k hk
    exact transfer_fold_sub _ _ _ _ _ _ _ k hk
  · intro k hk how
    exact transfer_fold_keep _ _ _ _ _ _ _ k hk (Or.inl how)
  · intro k hk hname
    exact transfer_fold_keep _ _ _ _ _ _ _ k hk (Or.inr hname)

/-- Witness for C10: a target with no shape keys gets a Basis key that
survives the transfer untouched (overwrite off, empty source key list,
empty mapping). -/
theorem transfer_shape_keys_frame_witness :
    (⟨("Basis"), (fun _ => (⟨0, 0, 0⟩ : V3 ℝ)), 0, 1, 0⟩ : SKey) ∈
      transfer_shape_keys ⟨1, (fun _ => ⟨0, 0, 0⟩), []⟩
        ⟨1, (fun _ => ⟨0, 0, 0⟩), []⟩ false [] :=
  (transfer_shape_keys_frame ⟨1, (fun _ => ⟨0, 0, 0⟩), []⟩
      ⟨1, (fun _ => ⟨0, 0, 0⟩), []⟩ false []).2.2.2.1
    ⟨("Basis"), (fun _ => ⟨0, 0, 0⟩), 0, 1, 0⟩
    (by simp [initial_target_keys]) rfl
